import Mathlib

/-!
Verification of the source module fetcher (cli/file_fetcher.rs).

This file gives a shallow embedding of the fetcher: URLs, the HTTP cache,
the in-memory source-file cache, the content-type classifier, the blocklist
matcher, shebang stripping, and the remote/cached/local fetch pipeline.
External collaborators of the fetcher (HTTP client, charset conversion,
filesystem, cache-filename derivation) are parameters of the model,
gathered in an `Env` record, exactly as the specification treats them as
external contracts.  Machine integers: the redirect limit is an `i64` in
the source and is modelled as `Int` (no overflow is reachable: the limit
only ever decreases from 10 by steps of 1 and is checked against 0).
Rust panics (`unwrap` on `None`/`Err`) are modelled as an explicit
`panic` outcome.
-/

/-- Media types, as enumerated by the repository (the enumeration itself
lives outside src/; the constructors used by the fetcher are listed in the
spec's classification table, section 4.4). -/
inductive MediaType : Type
  | JavaScript
  | JSX
  | TypeScript
  | TSX
  | Json
  | Wasm
  | Unknown
deriving DecidableEq

/-- A parsed absolute URL.  Models the external `url` crate's `Url` on the
hierarchical `scheme://host/path?query#fragment` forms used by the fetcher
(`host` includes any port).  The `path` of a parsed http(s) URL always
begins with a slash. -/
structure Url where
  scheme : String
  host : String
  path : String
  query : Option String := none
  fragment : Option String := none
deriving DecidableEq

/-- `Url::as_str` / `Url::to_string`: serialise the URL. -/
def Url.toString (u : Url) : String :=
  u.scheme ++ "://" ++ u.host ++ u.path ++
    (match u.query with | none => "" | some q => "?" ++ q) ++
    (match u.fragment with | none => "" | some f => "#" ++ f)

/-- Result of `Url::parse`, distinguishing the `RelativeUrlWithoutBase`
error which the fetcher handles specially from every other parse error. -/
inductive UrlParseResult : Type
  | ok (u : Url)
  | relativeWithoutBase
  | otherError
deriving DecidableEq

def isSchemeChar (c : Char) : Bool :=
  c.isAlphanum || c == '+' || c == '-' || c == '.'

/-- Models `Url::parse` from the external `url` crate, on the fragment of
URL syntax the fetcher exercises: absolute `scheme://host[/path][?q][#f]`
URLs parse to a `Url`; strings with no scheme yield
`RelativeUrlWithoutBase`; a scheme not followed by `://` or an empty host
is treated as a parse error (non-hierarchical URLs are outside the model). -/
def Url.parseModel (s : String) : UrlParseResult :=
  let cs := s.data
  let schemeChars := cs.takeWhile isSchemeChar
  let rest0 := cs.drop schemeChars.length
  match schemeChars.head? with
  | none => .relativeWithoutBase
  | some c0 =>
    if !c0.isAlpha then .relativeWithoutBase
    else
      match rest0 with
      | ':' :: '/' :: '/' :: rest =>
        let hostChars := rest.takeWhile (fun c => !(c == '/' || c == '?' || c == '#'))
        if hostChars.isEmpty then .otherError
        else
          let rest2 := rest.drop hostChars.length
          let pathChars := rest2.takeWhile (fun c => !(c == '?' || c == '#'))
          let rest3 := rest2.drop pathChars.length
          let path := if pathChars.isEmpty then "/" else String.mk pathChars
          match rest3 with
          | '?' :: qf =>
            let qChars := qf.takeWhile (fun c => !(c == '#'))
            let rest4 := qf.drop qChars.length
            match rest4 with
            | '#' :: f =>
              .ok { scheme := String.mk schemeChars, host := String.mk hostChars,
                    path := path, query := some (String.mk qChars),
                    fragment := some (String.mk f) }
            | _ =>
              .ok { scheme := String.mk schemeChars, host := String.mk hostChars,
                    path := path, query := some (String.mk qChars), fragment := none }
          | '#' :: f =>
            .ok { scheme := String.mk schemeChars, host := String.mk hostChars,
                  path := path, query := none, fragment := some (String.mk f) }
          | _ =>
            .ok { scheme := String.mk schemeChars, host := String.mk hostChars,
                  path := path, query := none, fragment := none }
      | ':' :: _ => .otherError
      | _ => .relativeWithoutBase

/-- `Url::set_path` (for the path-only redirect case): replace the path,
keeping scheme, host, query and fragment; a missing leading slash is added,
as the url crate does for special schemes. -/
def urlSetPath (u : Url) (p : String) : Url :=
  { u with path := if ("/".isPrefixOf p) then p else "/" ++ p }

/-- `Url::to_file_path`, modelled for Unix: the path of a `file` URL. -/
def urlToFilePath (u : Url) : Option String :=
  if u.scheme = "file" then some u.path else none

/-- Header maps: lowercased unique keys to values (the HTTP cache
contract, spec section 3). -/
abbrev Headers := List (String × String)

/-- `HeadersMap::get`. -/
def headersGet : Headers → String → Option String
  | [], _ => none
  | (k, v) :: rest, key => if k = key then some v else headersGet rest key

/-- One HTTP-cache entry: content bytes plus the header map. -/
structure CacheEntry where
  body : List Nat
  headers : Headers
deriving DecidableEq

/-- The on-disk HTTP cache, content-addressed by URL.  Only the not-found
failure of `HttpCache::get` is modelled (the fetcher maps it to the
"no cached version" outcome); the cache itself is an external contract. -/
abbrev HttpCacheM := List (Url × CacheEntry)

/-- `HttpCache::get` (a `none` result models the io NotFound error). -/
def http_cache_get : HttpCacheM → Url → Option CacheEntry
  | [], _ => none
  | (k, v) :: rest, u => if k = u then some v else http_cache_get rest u

/-- `HttpCache::set`: overwrite content and headers for the URL. -/
def http_cache_set (c : HttpCacheM) (u : Url) (headers : Headers)
    (body : List Nat) : HttpCacheM :=
  (u, { body := body, headers := headers }) :: c

/-- A text document: raw bytes plus a charset label. -/
structure TextDocument where
  bytes : List Nat
  charset : String
deriving DecidableEq

/-- A fetched source file record. -/
structure SourceFile where
  url : Url
  filename : String
  types_header : Option String
  media_type : MediaType
  source_code : TextDocument
deriving DecidableEq

/-- The in-process source-file cache, keyed by specifier string. -/
abbrev SourceFileCacheM := List (String × SourceFile)

/-- `SourceFileCache::get`. -/
def mem_cache_get : SourceFileCacheM → String → Option SourceFile
  | [], _ => none
  | (k, v) :: rest, key => if k = key then some v else mem_cache_get rest key

/-- `SourceFileCache::set`. -/
def mem_cache_set (m : SourceFileCacheM) (key : String) (f : SourceFile) :
    SourceFileCacheM :=
  (key, f) :: m

/-- Error values crossing the fetcher's boundaries (`AnyError`).
`ioNotFound` is a `std::io::Error` of kind NotFound (recognised by the
orchestrator's downcast); `notFound` / `http` are `custom_error` values
with those classes; `unsupportedScheme` is the generic error produced by
the scheme guard. -/
inductive FetchErr : Type
  | http (msg : String)
  | notFound (msg : String)
  | ioNotFound (msg : String)
  | uriError (msg : String)
  | permissionDenied
  | unsupportedScheme (scheme : String) (url : String)
  | other (msg : String)
deriving DecidableEq

/-- A single quote character, used in error messages. -/
def squote : String := String.mk [Char.ofNat 39]

/-- `AnyError::to_string`: the user-facing message of each error. -/
def errToString : FetchErr → String
  | .http m => m
  | .notFound m => m
  | .ioNotFound m => m
  | .uriError m => m
  | .permissionDenied => "permission denied"
  | .unsupportedScheme s u =>
      "Unsupported scheme \"" ++ s ++ "\" for module \"" ++ u ++
        "\". Supported schemes: [\"http\", \"https\", \"file\"]"
  | .other m => m

/-- Is the error a `std::io::Error` of kind NotFound (the orchestrator's
downcast test)? -/
def isIoNotFound : FetchErr → Bool
  | .ioNotFound _ => true
  | _ => false

/-- The three outcomes of the external `fetch_once` HTTP primitive. -/
inductive FetchOnceResult : Type
  | notModified
  | redirect (newUrl : Url) (headers : Headers)
  | code (body : List Nat) (headers : Headers)
deriving DecidableEq

/-- Outcome of a fetch-path computation: success, a surfaced error, or a
Rust panic (an `unwrap` of `None`). -/
inductive FetchOutcome (α : Type) : Type
  | ok (a : α)
  | err (e : FetchErr)
  | panic
deriving DecidableEq

/-- The external collaborators of the fetcher, as the spec's section 1
lists them: the HTTP client (`fetch_once`), charset detection and
conversion, the filesystem read used by the local path, and the cache's
deterministic URL-to-filename mapping. -/
structure Env : Type where
  fetchOnce : Url → Option String → Except FetchErr FetchOnceResult
  detectCharset : List Nat → String
  convertToUtf8 : List Nat → String → Option String
  readFile : String → Except FetchErr (List Nat)
  cacheFilename : Url → String

/-- `TextDocument::new`: when no charset is supplied it is detected from
the bytes. -/
def TextDocument.new (env : Env) (bytes : List Nat) (charset : Option String) :
    TextDocument :=
  { bytes := bytes, charset := charset.getD (env.detectCharset bytes) }

/-- `TextDocument::to_str`: decode the bytes under the charset label;
`none` models the io decode error. -/
def TextDocument.to_str (env : Env) (d : TextDocument) : Option String :=
  env.convertToUtf8 d.bytes d.charset

/-- The UTF-8 encoding of one character. -/
def utf8Char (c : Char) : List Nat :=
  let n := c.toNat
  if n < 128 then [n]
  else if n < 2048 then [192 + n / 64, 128 + n % 64]
  else if n < 65536 then [224 + n / 4096, 128 + (n / 64) % 64, 128 + n % 64]
  else [240 + n / 262144, 128 + (n / 4096) % 64, 128 + (n / 64) % 64, 128 + n % 64]

/-- UTF-8 bytes of a string, as `str::as_bytes`. -/
def strBytes (s : String) : List Nat :=
  (s.data.map utf8Char).flatten

/-- Rust `Path::file_name` (Unix): the part after the last slash. -/
def fileNameOf (s : String) : String :=
  String.mk ((s.data.reverse.takeWhile (fun c => !(c == '/'))).reverse)

/-- Rust `Path::extension` (Unix): the part of the file name after its
last dot, unless there is no dot or the only dot is the leading
character. -/
def extensionOf (path : String) : Option String :=
  let name := fileNameOf path
  let rname := name.data.reverse
  let ext := rname.takeWhile (fun c => !(c == '.'))
  if ext.length = rname.length then none
  else if ext.length + 1 = rname.length then none
  else some (String.mk ext.reverse)

/-- Modelled from the spec: `MediaType::from(path)` (the media-type
enumeration lives outside src/), spec section 4.2: the media type derived
solely from the path's file extension. -/
def MediaType.fromPath (path : String) : MediaType :=
  match extensionOf path with
  | some e =>
    if e = "ts" then .TypeScript
    else if e = "tsx" then .TSX
    else if e = "js" then .JavaScript
    else if e = "cjs" then .JavaScript
    else if e = "jsx" then .JSX
    else if e = "json" then .Json
    else if e = "wasm" then .Wasm
    else .Unknown
  | none => .Unknown

/-- `map_js_like_extension`: upgrade a JS/TS-class media type according to
the path extension (only `jsx` and `tsx` are special). -/
def map_js_like_extension (path : String) (default : MediaType) : MediaType :=
  match extensionOf path with
  | none => default
  | some e => if e = "jsx" then .JSX else if e = "tsx" then .TSX else default

/-- Rust `str::split(';')`: split a character list at every semicolon. -/
def splitOnSemi : List Char → List (List Char)
  | [] => [[]]
  | c :: rest =>
    match splitOnSemi rest with
    | [] => [[c]]
    | h :: t => if c = ';' then [] :: h :: t else (c :: h) :: t

/-- Rust `str::to_lowercase` on the ASCII characters Content-Type values
use. -/
def toLowerChars (cs : List Char) : List Char := cs.map Char.toLower

/-- Rust `str::trim`: drop whitespace from both ends. -/
def trimChars (cs : List Char) : List Char :=
  ((cs.dropWhile Char.isWhitespace).reverse.dropWhile Char.isWhitespace).reverse

/-- `map_content_type`: turn a path and an optional Content-Type header
into a media type and an optional charset. -/
def map_content_type (path : String) (contentType : Option String) :
    MediaType × Option String :=
  match contentType with
  | none => (MediaType.fromPath path, none)
  | some contentType =>
    let parts := splitOnSemi contentType.data
    let ct := String.mk (toLowerChars (parts.headD []))
    let mediaType :=
      if ct = "application/typescript" ∨ ct = "text/typescript"
          ∨ ct = "video/vnd.dlna.mpeg-tts" ∨ ct = "video/mp2t"
          ∨ ct = "application/x-typescript" then
        map_js_like_extension path .TypeScript
      else if ct = "application/javascript" ∨ ct = "text/javascript"
          ∨ ct = "application/ecmascript" ∨ ct = "text/ecmascript"
          ∨ ct = "application/x-javascript" ∨ ct = "application/node" then
        map_js_like_extension path .JavaScript
      else if ct = "application/json" ∨ ct = "text/json" then
        MediaType.Json
      else if ct = "application/wasm" then
        MediaType.Wasm
      else if ct = "text/plain" ∨ ct = "application/octet-stream" then
        MediaType.fromPath path
      else
        MediaType.Unknown
    let charset := (parts.tail.map trimChars).findSome?
      (fun s =>
        if "charset=".data.isPrefixOf s then some (String.mk (s.drop 8)) else none)
    (mediaType, charset)

/-- `filter_shebang`: everything before the first newline is removed; the
newline itself is kept; with no newline the result is empty. -/
def filter_shebang (s : String) : String :=
  if s.data.contains '\n' then String.mk (s.data.dropWhile (fun c => !(c == '\n')))
  else ""

/-- The two bytes `#!`. -/
def shebangBytes : List Nat := [35, 33]

/-- Substring test on character lists (Rust `str::contains`). -/
def hasSubstr (pat : List Char) : List Char → Bool
  | [] => pat.isEmpty
  | c :: rest => pat.isPrefixOf (c :: rest) || hasSubstr pat rest

/-- Rust `String::contains` for string slices. -/
def strContains (s pat : String) : Bool :=
  hasSubstr pat.data s.data

/-- Rust `Path::parent` (Unix), on the string representation: strip
trailing separators, then the last component, then the separators before
it.  `none` for the empty path; a single relative component has parent
`""`; the parent of `/x` is `/`. -/
def parentChars (cs : List Char) : Option (List Char) :=
  if (cs.reverse.dropWhile (fun c => c == '/')).isEmpty then none
  else if ((cs.reverse.dropWhile (fun c => c == '/')).dropWhile
      (fun c => !(c == '/'))).isEmpty then some []
  else if (((cs.reverse.dropWhile (fun c => c == '/')).dropWhile
      (fun c => !(c == '/'))).dropWhile (fun c => c == '/')).isEmpty then some ['/']
  else some ((((cs.reverse.dropWhile (fun c => c == '/')).dropWhile
      (fun c => !(c == '/'))).dropWhile (fun c => c == '/')).reverse)

/-- The `check_cache_blocklist` loop: check the current prefix string
against the blocklist, then pop the last path component and repeat until
the path cannot be shortened (`PathBuf::pop` returning false).  The fuel
argument is spare recursion budget; `parentChars` strictly shortens the
string, so the wrapper's fuel of length + 1 never runs out. -/
def blockLoopF (bl : List String) : Nat → List Char → Bool
  | 0, _ => false
  | fuel + 1, cs =>
    if bl.contains (String.mk cs) then true
    else
      match parentChars cs with
      | none => false
      | some p => blockLoopF bl fuel p

/-- The `check_cache_blocklist` loop at sufficient fuel. -/
def blockLoop (bl : List String) (cs : List Char) : Bool :=
  blockLoopF bl (cs.length + 1) cs

/-- `check_cache_blocklist`: the URL with its fragment cleared is looked
up verbatim; then, with the query also cleared, the string is treated as a
path and every prefix obtained by dropping trailing components is looked
up. -/
def check_cache_blocklist (url : Url) (black_list : List String) : Bool :=
  let urlWithoutFragments : Url := { url with fragment := none }
  if black_list.contains urlWithoutFragments.toString then true
  else
    let urlWithoutQueryStrings : Url := { urlWithoutFragments with query := none }
    blockLoop black_list urlWithoutQueryStrings.toString.data

def SUPPORTED_URL_SCHEMES : List String := ["http", "https", "file"]

/-- `SourceFileFetcher::check_if_supported_scheme`. -/
def check_if_supported_scheme (url : Url) : Except FetchErr Unit :=
  if SUPPORTED_URL_SCHEMES.contains url.scheme then Except.ok ()
  else Except.error (FetchErr.unsupportedScheme url.scheme url.toString)

/-- The etag probe before an origin fetch: read the HTTP cache for the
URL and keep the `etag` header if any; a failed read yields no etag. -/
def moduleEtag (cache : HttpCacheM) (url : Url) : Option String :=
  match http_cache_get cache url with
  | some entry => headersGet entry.headers "etag"
  | none => none

/-- `fetch_cached_remote_source`, with a spare fuel argument (every
recursive call decreases the redirect limit by exactly one and a negative
limit stops, so the wrapper's fuel is always sufficient). -/
def fetchCachedF (env : Env) (cache : HttpCacheM) :
    Nat → Url → Int → Except FetchErr (Option SourceFile)
  | 0, _, _ => Except.error (FetchErr.other "fuel exhausted")
  | fuel + 1, module_url, redirect_limit =>
    if redirect_limit < 0 then Except.error (FetchErr.http "too many redirects")
    else
      match http_cache_get cache module_url with
      | none => Except.ok none
      | some entry =>
        match headersGet entry.headers "location" with
        | some redirect_to =>
          match Url.parseModel redirect_to with
          | .ok redirect_url =>
            fetchCachedF env cache fuel redirect_url (redirect_limit - 1)
          | .relativeWithoutBase =>
            fetchCachedF env cache fuel (urlSetPath module_url redirect_to)
              (redirect_limit - 1)
          | .otherError => Except.error (FetchErr.other "invalid redirect URL")
        | none =>
          let source_code := entry.body
          let mc := map_content_type module_url.path
            (headersGet entry.headers "content-type")
          Except.ok (some
            { url := module_url,
              filename := env.cacheFilename module_url,
              media_type := mc.1,
              source_code := TextDocument.new env source_code mc.2,
              types_header := headersGet entry.headers "x-typescript-types" })

/-- `fetch_cached_remote_source`: reconstruct a source file from the HTTP
cache, following cached `location` headers. -/
def fetch_cached_remote_source (env : Env) (cache : HttpCacheM) (module_url : Url)
    (redirect_limit : Int) : Except FetchErr (Option SourceFile) :=
  fetchCachedF env cache ((redirect_limit + 2).toNat + 1) module_url redirect_limit

/-- `fetch_remote_source`, with a spare fuel argument (as for
`fetchCachedF`, the wrapper's fuel is always sufficient). -/
def fetchRemoteF (env : Env) (cache_blocklist : List String) (checkNet : Url → Bool)
    (use_disk_cache cached_only : Bool) :
    Nat → Url → Int → HttpCacheM → FetchOutcome (SourceFile × HttpCacheM)
  | 0, _, _, _ => FetchOutcome.err (FetchErr.other "fuel exhausted")
  | fuel + 1, module_url, redirect_limit, cache =>
    if redirect_limit < 0 then FetchOutcome.err (FetchErr.http "too many redirects")
    else if checkNet module_url = false then FetchOutcome.err FetchErr.permissionDenied
    else
      let is_blocked := check_cache_blocklist module_url cache_blocklist
      let cached : Except FetchErr (Option SourceFile) :=
        if use_disk_cache && !is_blocked then
          fetch_cached_remote_source env cache module_url redirect_limit
        else Except.ok none
      match cached with
      | Except.error e => FetchOutcome.err e
      | Except.ok (some source_file) => FetchOutcome.ok (source_file, cache)
      | Except.ok none =>
        if cached_only then
          FetchOutcome.err (FetchErr.notFound
            ("Cannot find remote file " ++ squote ++ module_url.toString ++ squote
              ++ " in cache, --cached-only is specified"))
        else
          match env.fetchOnce module_url (moduleEtag cache module_url) with
          | Except.error e => FetchOutcome.err e
          | Except.ok FetchOnceResult.notModified =>
            match fetch_cached_remote_source env cache module_url 10 with
            | Except.error e => FetchOutcome.err e
            | Except.ok none => FetchOutcome.panic
            | Except.ok (some source_file) => FetchOutcome.ok (source_file, cache)
          | Except.ok (FetchOnceResult.redirect new_module_url headers) =>
            let cache2 := http_cache_set cache module_url headers []
            fetchRemoteF env cache_blocklist checkNet use_disk_cache cached_only
              fuel new_module_url (redirect_limit - 1) cache2
          | Except.ok (FetchOnceResult.code source headers) =>
            let cache2 := http_cache_set cache module_url headers source
            let fake_filepath := module_url.path
            let mc := map_content_type fake_filepath (headersGet headers "content-type")
            FetchOutcome.ok
              ({ url := module_url,
                 filename := env.cacheFilename module_url,
                 media_type := mc.1,
                 source_code := TextDocument.new env source mc.2,
                 types_header := headersGet headers "x-typescript-types" }, cache2)

/-- `fetch_remote_source`: fetch a remote file following redirects,
writing each hop into the HTTP cache. -/
def fetch_remote_source (env : Env) (cache_blocklist : List String)
    (checkNet : Url → Bool) (use_disk_cache cached_only : Bool) (module_url : Url)
    (redirect_limit : Int) (cache : HttpCacheM) :
    FetchOutcome (SourceFile × HttpCacheM) :=
  fetchRemoteF env cache_blocklist checkNet use_disk_cache cached_only
    ((redirect_limit + 2).toNat + 1) module_url redirect_limit cache

/-- `fetch_local_file`: read a `file` URL from disk under a read
permission check. -/
def fetch_local_file (env : Env) (checkRead : String → Bool) (module_url : Url) :
    Except FetchErr SourceFile :=
  match urlToFilePath module_url with
  | none => Except.error (FetchErr.uriError "File URL contains invalid path")
  | some filepath =>
    if checkRead filepath = false then Except.error FetchErr.permissionDenied
    else
      match env.readFile filepath with
      | Except.error e => Except.error e
      | Except.ok source_code =>
        let mc := map_content_type filepath none
        Except.ok
          { url := module_url,
            filename := filepath,
            media_type := mc.1,
            source_code := TextDocument.new env source_code mc.2,
            types_header := none }

/-- `get_source_file`: scheme guard, then dispatch to the local reader or
(subject to `no_remote`) the remote engine with an initial redirect limit
of 10. -/
def get_source_file (env : Env) (cache_blocklist : List String)
    (checkNet : Url → Bool) (checkRead : String → Bool)
    (use_disk_cache no_remote cached_only : Bool) (module_url : Url)
    (cache : HttpCacheM) : FetchOutcome (SourceFile × HttpCacheM) :=
  match check_if_supported_scheme module_url with
  | Except.error e => FetchOutcome.err e
  | Except.ok _ =>
    if module_url.scheme = "file" then
      match fetch_local_file env checkRead module_url with
      | Except.error e => FetchOutcome.err e
      | Except.ok sf => FetchOutcome.ok (sf, cache)
    else if no_remote then
      FetchOutcome.err (FetchErr.ioNotFound
        ("Not allowed to get remote file " ++ squote ++ module_url.toString ++ squote))
    else
      fetch_remote_source env cache_blocklist checkNet use_disk_cache cached_only
        module_url 10 cache

/-- `get_source_file_from_local_cache`: scheme guard, then the local
reader for `file` URLs or the cached remote reader with a budget of 10. -/
def get_source_file_from_local_cache (env : Env) (checkRead : String → Bool)
    (module_url : Url) (cache : HttpCacheM) : Except FetchErr (Option SourceFile) :=
  match check_if_supported_scheme module_url with
  | Except.error e => Except.error e
  | Except.ok _ =>
    if module_url.scheme = "file" then
      (fetch_local_file env checkRead module_url).map some
    else
      fetch_cached_remote_source env cache module_url 10

/-- `fetch_cached_source_file`: the read-only entry point; a memory-cache
hit is returned, otherwise the local cache is consulted and any error is
swallowed into `none`. -/
def fetch_cached_source_file (env : Env) (checkRead : String → Bool)
    (memCache : SourceFileCacheM) (cache : HttpCacheM) (specifier : Url) :
    Option SourceFile :=
  match mem_cache_get memCache specifier.toString with
  | some source_file => some source_file
  | none =>
    match get_source_file_from_local_cache env checkRead specifier cache with
    | Except.ok maybe_source_file => maybe_source_file
    | Except.error _ => none

/-- `save_source_file_in_cache`: inject a record into the memory cache,
keyed by the specifier string; no check of any kind is performed. -/
def save_source_file_in_cache (memCache : SourceFileCacheM) (specifier : Url)
    (file : SourceFile) : SourceFileCacheM :=
  mem_cache_set memCache specifier.toString file

/-- The orchestrator's shebang step: if the bytes begin with `#!`, decode
the document (the `unwrap` of a failed decode is a panic, modelled as
`none`) and replace it by the filtered text re-encoded with a freshly
detected charset; otherwise the document passes through untouched. -/
def postProcessShebang (env : Env) (doc : TextDocument) : Option TextDocument :=
  if shebangBytes.isPrefixOf doc.bytes then
    match env.convertToUtf8 doc.bytes doc.charset with
    | none => none
    | some text => some (TextDocument.new env (strBytes (filter_shebang text)) none)
  else some doc

/-- The ` from "<referrer>"` clause of the orchestrator's rewrapped
messages. -/
def referrerSuffix : Option Url → String
  | some referrer => " from \"" ++ referrer.toString ++ "\""
  | none => ""

/-- `fetch_source_file`: the public orchestrator.  Memory-cache hits
return immediately; otherwise the fetch path runs, the shebang step is
applied, the record is inserted into the memory cache under the specifier
string, and errors are rewrapped (`--cached-only` by message match, io
NotFound by downcast). -/
def fetch_source_file (env : Env) (cache_blocklist : List String)
    (checkNet : Url → Bool) (checkRead : String → Bool)
    (use_disk_cache no_remote cached_only : Bool) (specifier : Url)
    (maybe_referrer : Option Url) (memCache : SourceFileCacheM)
    (cache : HttpCacheM) :
    FetchOutcome (SourceFile × SourceFileCacheM × HttpCacheM) :=
  match mem_cache_get memCache specifier.toString with
  | some source_file => FetchOutcome.ok (source_file, memCache, cache)
  | none =>
    match get_source_file env cache_blocklist checkNet checkRead use_disk_cache
        no_remote cached_only specifier cache with
    | FetchOutcome.panic => FetchOutcome.panic
    | FetchOutcome.ok (file, cache2) =>
      match postProcessShebang env file.source_code with
      | none => FetchOutcome.panic
      | some doc =>
        let file2 := { file with source_code := doc }
        FetchOutcome.ok
          (file2, mem_cache_set memCache specifier.toString file2, cache2)
    | FetchOutcome.err e =>
      if strContains (errToString e) "--cached-only" then
        FetchOutcome.err (FetchErr.notFound
          ("Cannot find module \"" ++ specifier.toString ++ "\""
            ++ referrerSuffix maybe_referrer
            ++ " in cache, --cached-only is specified"))
      else if isIoNotFound e then
        FetchOutcome.err (FetchErr.notFound
          ("Cannot resolve module \"" ++ specifier.toString ++ "\""
            ++ referrerSuffix maybe_referrer))
      else
        FetchOutcome.err e

/-- The character-list form of a sequence of appended path segments. -/
def segPath (segs : List String) : List Char :=
  (segs.map (fun s => '/' :: s.data)).flatten

/-- The six JavaScript-class Content-Type header values. -/
def jsLikeContentTypes : List String :=
  ["application/javascript", "text/javascript", "application/ecmascript",
   "text/ecmascript", "application/x-javascript", "application/node"]

/-- A concrete environment for witnesses: an offline network, utf-8
detection, failing decoder, absent files, and the URL string as cache
filename. -/
def defaultEnv : Env :=
  { fetchOnce := fun _ _ => Except.error (FetchErr.other "offline"),
    detectCharset := fun _ => "utf-8",
    convertToUtf8 := fun _ _ => none,
    readFile := fun _ => Except.error (FetchErr.ioNotFound "file not found"),
    cacheFilename := fun u => u.toString }

/-- A two-hop scenario: `http://a/mod.js` redirects to `http://b/mod.js`,
which serves code. -/
def urlA : Url := { scheme := "http", host := "a", path := "/mod.js" }

def urlB : Url := { scheme := "http", host := "b", path := "/mod.js" }

/-- The environment serving the two-hop scenario. -/
def chainEnv : Env :=
  { defaultEnv with
    fetchOnce := fun u _ =>
      if u = urlA then
        Except.ok (FetchOnceResult.redirect urlB [("location", "http://b/mod.js")])
      else
        Except.ok (FetchOnceResult.code [101]
          [("content-type", "application/javascript")]) }

/-- An environment whose origin always answers NotModified. -/
def nmEnv : Env :=
  { defaultEnv with fetchOnce := fun _ _ => Except.ok FetchOnceResult.notModified }

/-- A concrete record for memory-cache witnesses. -/
def sfA : SourceFile :=
  { url := urlA, filename := "a", types_header := none,
    media_type := MediaType.JavaScript,
    source_code := { bytes := [101], charset := "utf-8" } }

/-- A file-scheme URL whose on-disk bytes are exactly `#!`. -/
def urlF : Url := { scheme := "file", host := "", path := "/m.ts" }

/-- An environment with a shebang-only file and a failing decoder. -/
def shebangEnv : Env :=
  { defaultEnv with readFile := fun _ => Except.ok [35, 33] }

/-- A record under an unsupported-scheme specifier, as the injection
entry point can create. -/
def urlX : Url := { scheme := "ftp", host := "example.com", path := "/x" }

def sfX : SourceFile :=
  { url := urlX, filename := "x", types_header := none,
    media_type := MediaType.Unknown,
    source_code := { bytes := [], charset := "utf-8" } }

/-- An origin-side redirect chain: from this URL, the network answers
with exactly `k` redirect hops (whatever etag is offered) and then serves
code. -/
inductive ChainTo (env : Env) : Url → Nat → Prop
  | code (u : Url) (body : List Nat) (headers : Headers)
      (h : ∀ etag, env.fetchOnce u etag =
        Except.ok (FetchOnceResult.code body headers)) :
      ChainTo env u 0
  | redirect (u v : Url) (headers : Headers) (k : Nat)
      (h : ∀ etag, env.fetchOnce u etag =
        Except.ok (FetchOnceResult.redirect v headers))
      (hv : ChainTo env v k) : ChainTo env u (k + 1)

/-- A cached redirect chain: from this URL, the HTTP cache holds exactly
`k` redirect placeholders with absolutely-parsing locations and then a
terminal entry. -/
inductive CachedChainTo (cache : HttpCacheM) : Url → Nat → Prop
  | terminal (u : Url) (entry : CacheEntry)
      (hc : http_cache_get cache u = some entry)
      (hl : headersGet entry.headers "location" = none) :
      CachedChainTo cache u 0
  | hop (u : Url) (entry : CacheEntry) (loc : String) (v : Url) (k : Nat)
      (hc : http_cache_get cache u = some entry)
      (hl : headersGet entry.headers "location" = some loc)
      (hp : Url.parseModel loc = UrlParseResult.ok v)
      (hv : CachedChainTo cache v k) : CachedChainTo cache u (k + 1)

/-- Unfolding equation for `fetch_cached_remote_source`: it satisfies the
recursion of the source verbatim (budget check, cache read, redirect
resolution with the limit decreased by one, terminal record). -/
theorem fetch_cached_remote_source_eq (env : Env) (cache : HttpCacheM)
    (module_url : Url) (redirect_limit : Int) :
    fetch_cached_remote_source env cache module_url redirect_limit =
      (if redirect_limit < 0 then Except.error (FetchErr.http "too many redirects")
      else
        match http_cache_get cache module_url with
        | none => Except.ok none
        | some entry =>
          match headersGet entry.headers "location" with
          | some redirect_to =>
            match Url.parseModel redirect_to with
            | .ok redirect_url =>
              fetch_cached_remote_source env cache redirect_url (redirect_limit - 1)
            | .relativeWithoutBase =>
              fetch_cached_remote_source env cache (urlSetPath module_url redirect_to)
                (redirect_limit - 1)
            | .otherError => Except.error (FetchErr.other "invalid redirect URL")
          | none =>
            let source_code := entry.body
            let mc := map_content_type module_url.path
              (headersGet entry.headers "content-type")
            Except.ok (some
              { url := module_url,
                filename := env.cacheFilename module_url,
                media_type := mc.1,
                source_code := TextDocument.new env source_code mc.2,
                types_header := headersGet entry.headers "x-typescript-types" })) := by
  by_cases h : redirect_limit < 0
  · simp only [fetch_cached_remote_source, fetchCachedF]
    simp [h]
  · have h2 : (redirect_limit + 2).toNat + 1 = (((redirect_limit - 1) + 2).toNat + 1) + 1 := by
      omega
    simp only [fetch_cached_remote_source]
    rw [h2]
    simp only [fetchCachedF]

/-- Unfolding equation for `fetch_remote_source`: it satisfies the
recursion of the source verbatim (budget check, permission, blocklist,
disk-cache read, offline gate, etag probe, and the three origin-fetch
outcomes, redirects recursing with the limit decreased by one). -/
theorem fetch_remote_source_eq (env : Env) (cache_blocklist : List String)
    (checkNet : Url → Bool) (use_disk_cache cached_only : Bool) (module_url : Url)
    (redirect_limit : Int) (cache : HttpCacheM) :
    fetch_remote_source env cache_blocklist checkNet use_disk_cache cached_only
        module_url redirect_limit cache =
      (if redirect_limit < 0 then FetchOutcome.err (FetchErr.http "too many redirects")
      else if checkNet module_url = false then FetchOutcome.err FetchErr.permissionDenied
      else
        let is_blocked := check_cache_blocklist module_url cache_blocklist
        let cached : Except FetchErr (Option SourceFile) :=
          if use_disk_cache && !is_blocked then
            fetch_cached_remote_source env cache module_url redirect_limit
          else Except.ok none
        match cached with
        | Except.error e => FetchOutcome.err e
        | Except.ok (some source_file) => FetchOutcome.ok (source_file, cache)
        | Except.ok none =>
          if cached_only then
            FetchOutcome.err (FetchErr.notFound
              ("Cannot find remote file " ++ squote ++ module_url.toString ++ squote
                ++ " in cache, --cached-only is specified"))
          else
            match env.fetchOnce module_url (moduleEtag cache module_url) with
            | Except.error e => FetchOutcome.err e
            | Except.ok FetchOnceResult.notModified =>
              match fetch_cached_remote_source env cache module_url 10 with
              | Except.error e => FetchOutcome.err e
              | Except.ok none => FetchOutcome.panic
              | Except.ok (some source_file) => FetchOutcome.ok (source_file, cache)
            | Except.ok (FetchOnceResult.redirect new_module_url headers) =>
              let cache2 := http_cache_set cache module_url headers []
              fetch_remote_source env cache_blocklist checkNet use_disk_cache
                cached_only new_module_url (redirect_limit - 1) cache2
            | Except.ok (FetchOnceResult.code source headers) =>
              let cache2 := http_cache_set cache module_url headers source
              let fake_filepath := module_url.path
              let mc := map_content_type fake_filepath
                (headersGet headers "content-type")
              FetchOutcome.ok
                ({ url := module_url,
                   filename := env.cacheFilename module_url,
                   media_type := mc.1,
                   source_code := TextDocument.new env source mc.2,
                   types_header := headersGet headers "x-typescript-types" }, cache2)) := by
  by_cases h : redirect_limit < 0
  · simp only [fetch_remote_source, fetchRemoteF]
    simp [h]
  · have h2 : (redirect_limit + 2).toNat + 1 = (((redirect_limit - 1) + 2).toNat + 1) + 1 := by
      omega
    simp only [fetch_remote_source]
    rw [h2]
    simp only [fetchRemoteF]

/-- Helper: the head of a nonempty `dropWhile` result fails the
predicate. -/
theorem head_dropWhile_false (p : Char → Bool) :
    ∀ (l : List Char), l.dropWhile p ≠ [] → p ((l.dropWhile p).headD ' ') = false := by
  intro l
  induction l with
  | nil => intro h; simp at h
  | cons c t ih =>
    intro h
    by_cases hc : p c
    · rw [List.dropWhile_cons, if_pos hc] at h ⊢
      exact ih h
    · rw [List.dropWhile_cons, if_neg hc] at h ⊢
      simpa using hc

/-- Helper: `dropWhile` strictly shortens a list whose head satisfies the
predicate. -/
theorem dropWhile_length_lt_of_head (p : Char → Bool) (l : List Char)
    (hl : l ≠ []) (hp : p (l.headD ' ') = true) :
    (l.dropWhile p).length < l.length := by
  cases l with
  | nil => simp at hl
  | cons c t =>
    simp only [List.headD_cons] at hp
    rw [List.dropWhile_cons, if_pos hp]
    have := (List.dropWhile_sublist (l := t) p).length_le
    simp only [List.length_cons]
    omega

/-- `parentChars` strictly shortens its argument (this is what makes the
`check_cache_blocklist` loop terminate). -/
theorem parentChars_length_lt (cs p : List Char) (h : parentChars cs = some p) :
    p.length < cs.length := by
  unfold parentChars at h
  set r1 := cs.reverse.dropWhile (fun c => c == '/') with hr1
  by_cases h1 : r1.isEmpty
  · simp [h1] at h
  · simp only [h1, if_false] at h
    have hr1ne : r1 ≠ [] := by simpa [List.isEmpty_iff] using h1
    have hr1len : r1.length ≤ cs.length := by
      have := (List.dropWhile_sublist (l := cs.reverse) (fun c => c == '/')).length_le
      simpa [hr1] using this
    have hhead : ((r1.headD ' ') == '/') = false := by
      have := head_dropWhile_false (fun c => c == '/') cs.reverse (by simpa [hr1] using hr1ne)
      simpa [hr1] using this
    set r2 := r1.dropWhile (fun c => !(c == '/')) with hr2
    have hr2len : r2.length < r1.length := by
      apply dropWhile_length_lt_of_head _ _ hr1ne
      simpa using hhead
    by_cases h2 : r2.isEmpty
    · simp only [h2, if_true] at h
      cases h
      have hcne : cs ≠ [] := by
        intro hh
        exact hr1ne (by simp [hr1, hh])
      have : 0 < cs.length := List.length_pos.mpr hcne
      simpa using this
    · simp only [h2, if_false] at h
      have hr2ne : r2 ≠ [] := by simpa [List.isEmpty_iff] using h2
      set r3 := r2.dropWhile (fun c => c == '/') with hr3
      have hr3len : r3.length ≤ r2.length := (List.dropWhile_sublist (l := r2) _).length_le
      by_cases h3 : r3.isEmpty
      · simp only [h3, if_true] at h
        cases h
        have : 0 < r2.length := List.length_pos.mpr hr2ne
        simp only [List.length_cons, List.length_nil]
        omega
      · simp only [h3, if_false] at h
        cases h
        simp only [List.length_reverse]
        omega

/-- Every character of a parent string is a separator or a character of
the original string. -/
theorem parentChars_subset (cs p : List Char) (h : parentChars cs = some p) :
    ∀ c ∈ p, c = '/' ∨ c ∈ cs := by
  unfold parentChars at h
  set r1 := cs.reverse.dropWhile (fun c => c == '/') with hr1
  by_cases h1 : r1.isEmpty
  · simp [h1] at h
  · simp only [h1, if_false] at h
    set r2 := r1.dropWhile (fun c => !(c == '/')) with hr2
    by_cases h2 : r2.isEmpty
    · simp only [h2, if_true] at h
      cases h
      intro c hc
      simp at hc
    · simp only [h2, if_false] at h
      set r3 := r2.dropWhile (fun c => c == '/') with hr3
      have hsub : ∀ c ∈ r3, c ∈ cs := by
        intro c hc
        have hc2 : c ∈ r2 := (List.dropWhile_sublist (l := r2) _).subset hc
        have hc1 : c ∈ r1 := (List.dropWhile_sublist (l := r1) _).subset hc2
        have hc0 : c ∈ cs.reverse :=
          (List.dropWhile_sublist (l := cs.reverse) _).subset hc1
        exact List.mem_reverse.mp hc0
      by_cases h3 : r3.isEmpty
      · simp only [h3, if_true] at h
        cases h
        intro c hc
        simp at hc
        exact Or.inl hc
      · simp only [h3, if_false] at h
        cases h
        intro c hc
        exact Or.inr (hsub c (List.mem_reverse.mp hc))

/-- The loop result does not depend on the fuel, as long as the fuel
exceeds the string length. -/
theorem blockLoopF_congr (bl : List String) :
    ∀ (f1 : Nat) (f2 : Nat) (cs : List Char), cs.length < f1 → cs.length < f2 →
      blockLoopF bl f1 cs = blockLoopF bl f2 cs := by
  intro f1
  induction f1 with
  | zero => intro f2 cs h1; omega
  | succ n ih =>
    intro f2 cs h1 h2
    cases f2 with
    | zero => omega
    | succ m =>
      cases hp : parentChars cs with
      | none => simp only [blockLoopF, hp]
      | some p =>
        have hlt := parentChars_length_lt cs p hp
        simp only [blockLoopF, hp]
        rw [ih m p (by omega) (by omega)]

/-- Unfolding equation for the blocklist loop: check the current string,
then recurse on its parent. -/
theorem blockLoop_eq (bl : List String) (cs : List Char) :
    blockLoop bl cs =
      (if bl.contains (String.mk cs) then true
      else
        match parentChars cs with
        | none => false
        | some p => blockLoop bl p) := by
  unfold blockLoop
  cases hp : parentChars cs with
  | none => simp only [blockLoopF, hp]
  | some p =>
    have hlt := parentChars_length_lt cs p hp
    simp only [blockLoopF, hp]
    rw [blockLoopF_congr bl cs.length (p.length + 1) p (by omega) (by omega)]
    simp only [blockLoopF]

/-- Helper: `dropWhile` skips over a block that wholly satisfies the
predicate. -/
theorem dropWhile_append_all (p : Char → Bool) :
    ∀ (l1 l2 : List Char), (∀ c ∈ l1, p c = true) →
      (l1 ++ l2).dropWhile p = l2.dropWhile p := by
  intro l1
  induction l1 with
  | nil => intro l2 _; rfl
  | cons c t ih =>
    intro l2 hall
    rw [List.cons_append, List.dropWhile_cons, if_pos (hall c (by simp))]
    exact ih l2 (fun x hx => hall x (by simp [hx]))

/-- Helper: `dropWhile` keeps a list whose head fails the predicate. -/
theorem dropWhile_cons_false (p : Char → Bool) (c : Char) (l : List Char)
    (hc : p c = false) : (c :: l).dropWhile p = c :: l := by
  rw [List.dropWhile_cons, if_neg (by simp [hc])]

/-- Popping one slash-separated, slash-free, nonempty trailing component
yields the base string (the `PathBuf::pop` step of the blocklist loop). -/
theorem parentChars_append_seg (base seg : List Char) (hb : base ≠ [])
    (hlast : base.reverse.headD ' ' ≠ '/') (hseg : seg ≠ [])
    (hsegc : ∀ c ∈ seg, c ≠ '/') :
    parentChars (base ++ '/' :: seg) = some base := by
  have hrev : (base ++ '/' :: seg).reverse = seg.reverse ++ '/' :: base.reverse := by
    simp
  unfold parentChars
  rw [hrev]
  rcases hsr : seg.reverse with _ | ⟨c, cs⟩
  · exact absurd (by simpa using congrArg List.reverse hsr) hseg
  · have hcseg : c ∈ seg := by
      have : c ∈ seg.reverse := by simp [hsr]
      exact List.mem_reverse.mp this
    have hc : (c == '/') = false := by
      simp [hsegc c hcseg]
    have h1 : ((c :: cs) ++ '/' :: base.reverse).dropWhile (fun x => x == '/') =
        (c :: cs) ++ '/' :: base.reverse := by
      rw [List.cons_append]
      exact dropWhile_cons_false _ _ _ hc
    rw [h1]
    have hall : ∀ x ∈ (c :: cs), (!(x == '/')) = true := by
      intro x hx
      have : x ∈ seg.reverse := by simp [hsr, hx]
      simp [hsegc x (List.mem_reverse.mp this)]
    have h2 : ((c :: cs) ++ '/' :: base.reverse).dropWhile (fun x => !(x == '/')) =
        '/' :: base.reverse := by
      rw [dropWhile_append_all _ _ _ hall]
      rw [List.dropWhile_cons, if_neg (by simp)]
    rw [h2]
    rcases hbr : base.reverse with _ | ⟨b, bs⟩
    · exact absurd (by simpa using congrArg List.reverse hbr) hb
    · have hbne : (b == '/') = false := by
        have hh : base.reverse.headD ' ' = b := by simp [hbr]
        simp [hh ▸ hlast]
      have h3 : ('/' :: b :: bs).dropWhile (fun x => x == '/') = b :: bs := by
        rw [List.dropWhile_cons, if_pos (by simp)]
        exact dropWhile_cons_false _ _ _ hbne
      have hne2 : (c :: cs ++ '/' :: b :: bs).isEmpty = false := by simp
      have hne3 : ('/' :: b :: bs).isEmpty = false := by simp
      have hne4 : (b :: bs).isEmpty = false := by simp
      simp only [h3, hne2, hne3, hne4, Bool.false_eq_true, if_false]
      rw [show (b :: bs) = base.reverse from hbr.symm]
      simp

/-- If the blocklist contains a base string, the loop accepts the base
extended by any chain of nonempty slash-free path segments. -/
theorem blockLoop_true_of_ancestor (bl : List String) (base : List Char)
    (hb : base ≠ []) (hlast : base.reverse.headD ' ' ≠ '/')
    (hin : bl.contains (String.mk base) = true) :
    ∀ (segs : List String),
      (∀ s ∈ segs, s.data ≠ [] ∧ ∀ c ∈ s.data, c ≠ '/') →
      blockLoop bl (base ++ segPath segs) = true := by
  have main : ∀ (segs : List String),
      (∀ s ∈ segs, s.data ≠ [] ∧ ∀ c ∈ s.data, c ≠ '/') →
      blockLoop bl (base ++ segPath segs) = true
        ∧ base ++ segPath segs ≠ []
        ∧ (base ++ segPath segs).reverse.headD ' ' ≠ '/' := by
    intro segs
    induction segs using List.reverseRecOn with
    | nil =>
      intro _
      refine ⟨?_, ?_, ?_⟩
      · rw [show segPath [] = [] from rfl, List.append_nil, blockLoop_eq, hin]
        rfl
      · simp [segPath, hb]
      · simpa [segPath] using hlast
    | append_singleton init s ih =>
      intro hgood
      obtain ⟨ihloop, ihne, ihlast⟩ := ih (fun t ht => hgood t (by simp [ht]))
      obtain ⟨hsne, hsc⟩ := hgood s (by simp)
      have hsp : segPath (init ++ [s]) = segPath init ++ '/' :: s.data := by
        simp [segPath]
      have hassoc : base ++ segPath (init ++ [s]) =
          (base ++ segPath init) ++ '/' :: s.data := by
        rw [hsp, List.append_assoc]
      have hparent : parentChars ((base ++ segPath init) ++ '/' :: s.data) =
          some (base ++ segPath init) :=
        parentChars_append_seg _ _ ihne ihlast hsne hsc
      refine ⟨?_, ?_, ?_⟩
      · rw [hassoc, blockLoop_eq]
        by_cases hc : bl.contains (String.mk ((base ++ segPath init) ++ '/' :: s.data))
        · simp only [hc, if_true]
        · simp only [hc, Bool.false_eq_true, if_false, hparent]
          exact ihloop
      · rw [hassoc]
        simp
      · rw [hassoc]
        rcases hsr : s.data.reverse with _ | ⟨c, cs⟩
        · exact absurd (by simpa using congrArg List.reverse hsr) hsne
        · have hcs : c ∈ s.data := by
            have : c ∈ s.data.reverse := by simp [hsr]
            exact List.mem_reverse.mp this
          have : ((base ++ segPath init) ++ '/' :: s.data).reverse =
              c :: (cs ++ '/' :: (base ++ segPath init).reverse) := by
            simp [hsr]
          rw [this]
          simpa using hsc c hcs
  intro segs hgood
  exact (main segs hgood).1

/-- If every blocklist entry carries a character that never occurs in the
examined string (and is not the path separator), the loop rejects. -/
theorem blockLoopF_false_of_forbidden (bl : List String) (c0 : Char)
    (hc0 : c0 ≠ '/') (hbl : ∀ e ∈ bl, c0 ∈ e.data) :
    ∀ (n : Nat) (cs : List Char), cs.length < n → c0 ∉ cs →
      blockLoopF bl n cs = false := by
  intro n
  induction n with
  | zero => intro cs h _; omega
  | succ m ih =>
    intro cs hlen hnot
    have hcont : bl.contains (String.mk cs) = false := by
      by_contra hx
      have hmem : String.mk cs ∈ bl := List.elem_iff.mp (by
        cases h2 : bl.contains (String.mk cs)
        · exact absurd h2 hx
        · exact h2)
      have := hbl _ hmem
      exact hnot this
    cases hp : parentChars cs with
    | none => simp only [blockLoopF, hp, hcont, Bool.false_eq_true, if_false]
    | some p =>
      simp only [blockLoopF, hp, hcont, Bool.false_eq_true, if_false]
      apply ih
      · have := parentChars_length_lt cs p hp
        omega
      · intro hcp
        rcases parentChars_subset cs p hp c0 hcp with h | h
        · exact hc0 h
        · exact hnot h

/-- The wrapper form of the forbidden-character rejection. -/
theorem blockLoop_false_of_forbidden (bl : List String) (c0 : Char)
    (hc0 : c0 ≠ '/') (hbl : ∀ e ∈ bl, c0 ∈ e.data) (cs : List Char)
    (hnot : c0 ∉ cs) : blockLoop bl cs = false :=
  blockLoopF_false_of_forbidden bl c0 hc0 hbl (cs.length + 1) cs (by omega) hnot

/-- Characters of the fragment-and-query-stripped URL string are among
the characters of the fragment-stripped URL string. -/
theorem mem_data_noquery (u : Url) (c : Char)
    (h : c ∈ (Url.toString { u with query := none, fragment := none }).data) :
    c ∈ (Url.toString { u with fragment := none }).data := by
  cases hq : u.query with
  | none =>
    simp [Url.toString, hq] at h ⊢
    exact h
  | some q =>
    simp [Url.toString, String.data_append, hq, List.mem_append] at h ⊢
    tauto

/-- C6 (amended): `check_cache_blocklist` matches: (1) any URL whose
fragment-stripped serialisation is a blocklist entry; (2) with the query
also stripped, any URL reachable by appending nonempty slash-free path
segments to a listed base; (3) the fragment never influences the result;
(4) an entry that itself carries a `#` (which the repository's option
normalisation would have stripped before the fetcher ever sees it) matches
no URL whose fragment-stripped form is `#`-free — in particular the
scenario entry `http://f.tld/m.ts#frag` blocks neither `http://f.tld/m.ts`
nor `http://f.tld/m.ts#frag`; (5) a query-carrying entry matches only URLs
whose fragment-stripped form equals it verbatim; and (6) the concrete
scenario outcomes. -/
theorem claim_C6 :
    (∀ (u : Url) (bl : List String),
      bl.contains (Url.toString { u with fragment := none }) = true →
      check_cache_blocklist u bl = true)
  ∧ (∀ (scheme host p path2 : String) (q f : Option String) (bl : List String)
        (segs : List String),
      bl.contains (Url.toString { scheme := scheme, host := host, path := p }) = true →
      (Url.toString { scheme := scheme, host := host, path := p }).data.reverse.headD ' ' ≠ '/' →
      (∀ s ∈ segs, s.data ≠ [] ∧ ∀ c ∈ s.data, c ≠ '/') →
      path2.data = p.data ++ segPath segs →
      check_cache_blocklist
        { scheme := scheme, host := host, path := path2, query := q, fragment := f } bl = true)
  ∧ (∀ (u : Url) (bl : List String) (f : Option String),
      check_cache_blocklist { u with fragment := f } bl = check_cache_blocklist u bl)
  ∧ (∀ (u : Url) (bl : List String),
      (∀ e ∈ bl, '#' ∈ e.data) →
      '#' ∉ (Url.toString { u with fragment := none }).data →
      check_cache_blocklist u bl = false)
  ∧ (∀ (u : Url) (qe : String),
      '?' ∈ qe.data →
      '?' ∉ (Url.toString { u with query := none, fragment := none }).data →
      Url.toString { u with fragment := none } ≠ qe →
      check_cache_blocklist u [qe] = false)
  ∧ (check_cache_blocklist { scheme := "http", host := "host", path := "/pkg/sub/m.ts" }
        ["http://host/pkg", "http://q.tld/m.ts?k=v", "http://f.tld/m.ts#frag"] = true
    ∧ check_cache_blocklist { scheme := "http", host := "q.tld", path := "/m.ts" }
        ["http://host/pkg", "http://q.tld/m.ts?k=v", "http://f.tld/m.ts#frag"] = false
    ∧ check_cache_blocklist { scheme := "http", host := "q.tld", path := "/m.ts", query := some "k=v" }
        ["http://host/pkg", "http://q.tld/m.ts?k=v", "http://f.tld/m.ts#frag"] = true
    ∧ check_cache_blocklist { scheme := "http", host := "q.tld", path := "/m.ts", query := some "k=v", fragment := some "any" }
        ["http://host/pkg", "http://q.tld/m.ts?k=v", "http://f.tld/m.ts#frag"] = true
    ∧ check_cache_blocklist { scheme := "http", host := "f.tld", path := "/m.ts" }
        ["http://host/pkg", "http://q.tld/m.ts?k=v", "http://f.tld/m.ts#frag"] = false
    ∧ check_cache_blocklist { scheme := "http", host := "f.tld", path := "/m.ts", fragment := some "frag" }
        ["http://host/pkg", "http://q.tld/m.ts?k=v", "http://f.tld/m.ts#frag"] = false) := by
  refine ⟨?_, ?_, ?_, ?_, ?_, ?_⟩
  · intro u bl h
    simp only [check_cache_blocklist]
    rw [if_pos h]
  · intro scheme host p path2 q f bl segs hin hlast hgood hpath
    have hsep : "://".data = [':', '/', '/'] := rfl
    have hbne : (Url.toString { scheme := scheme, host := host, path := p }).data ≠ [] := by
      simp [Url.toString, String.data_append, hsep, List.append_eq_nil]
    have key : (Url.toString { scheme := scheme, host := host, path := path2 }).data =
        (Url.toString { scheme := scheme, host := host, path := p }).data ++ segPath segs := by
      simp [Url.toString, String.data_append, hpath]
    have hmk : String.mk (Url.toString { scheme := scheme, host := host, path := p }).data =
        Url.toString { scheme := scheme, host := host, path := p } := rfl
    have hloop := blockLoop_true_of_ancestor bl
      (Url.toString { scheme := scheme, host := host, path := p }).data hbne hlast
      (by rw [hmk]; exact hin) segs hgood
    by_cases hfc : bl.contains (Url.toString
        { scheme := scheme, host := host, path := path2, query := q, fragment := none }) = true
    · simp only [check_cache_blocklist]
      rw [if_pos hfc]
    · simp only [check_cache_blocklist]
      rw [if_neg hfc, key]
      exact hloop
  · intro u bl f
    rfl
  · intro u bl hbl hnot
    have hfc : bl.contains (Url.toString { u with fragment := none }) = false := by
      cases h : bl.contains (Url.toString { u with fragment := none }) with
      | false => rfl
      | true =>
        have hmem := List.elem_iff.mp h
        exact absurd (hbl _ hmem) hnot
    simp only [check_cache_blocklist]
    rw [if_neg (by rw [hfc]; simp)]
    apply blockLoop_false_of_forbidden bl '#' (by decide) hbl
    intro hc
    exact hnot (mem_data_noquery u '#' hc)
  · intro u qe hq hnot hne
    have hfc : ([qe] : List String).contains (Url.toString { u with fragment := none }) = false := by
      cases h : ([qe] : List String).contains (Url.toString { u with fragment := none }) with
      | false => rfl
      | true =>
        have hmem := List.elem_iff.mp h
        simp at hmem
        exact absurd hmem hne
    simp only [check_cache_blocklist]
    rw [if_neg (by rw [hfc]; simp)]
    apply blockLoop_false_of_forbidden [qe] '?' (by decide) (by simpa using hq)
    exact hnot
  · exact ⟨by decide, by decide, by decide, by decide, by decide, by decide⟩

/-- C6 counterexample: against the literal scenario blocklist, the
fragment-carrying entry `http://f.tld/m.ts#frag` blocks neither
`http://f.tld/m.ts` nor `http://f.tld/m.ts#frag`, where the claim says
both are blocked. -/
theorem claim_C6_counterexample :
    check_cache_blocklist { scheme := "http", host := "f.tld", path := "/m.ts" }
      ["http://host/pkg", "http://q.tld/m.ts?k=v", "http://f.tld/m.ts#frag"] = false
  ∧ check_cache_blocklist
      { scheme := "http", host := "f.tld", path := "/m.ts", fragment := some "frag" }
      ["http://host/pkg", "http://q.tld/m.ts?k=v", "http://f.tld/m.ts#frag"] = false := by
  exact ⟨by decide, by decide⟩

/-- C6 witness: the descendant clause of the amended claim at a concrete
input. -/
theorem claim_C6_witness :
    check_cache_blocklist { scheme := "http", host := "host", path := "/pkg/sub/m.ts" }
      ["http://host/pkg"] = true :=
  claim_C6.2.1 "http" "host" "/pkg" "/pkg/sub/m.ts" none none ["http://host/pkg"]
    ["sub", "m.ts"] (by decide) (by decide) (by decide) (by decide)

/-- C1 counterexample: a `.ts` path under the JS-class header
`application/javascript` classifies as JavaScript, not TypeScript as the
claim states (`map_js_like_extension` special-cases only `jsx` and
`tsx`). -/
theorem claim_C1_counterexample :
    extensionOf "foo/bar.ts" = some "ts"
  ∧ (map_content_type "foo/bar.ts" (some "application/javascript")).1 =
      MediaType.JavaScript
  ∧ MediaType.JavaScript ≠ MediaType.TypeScript := by
  exact ⟨by decide, by decide, by decide⟩

/-- C1 (amended): for every path and JS-class content-type header,
`map_content_type` yields JSX for extension `jsx`, TSX for `tsx`, and the
JavaScript default for every other extension — including `ts`. -/
theorem claim_C1 (path ct : String) (h : ct ∈ jsLikeContentTypes) :
    (map_content_type path (some ct)).1 =
      (match extensionOf path with
        | some e =>
          if e = "jsx" then MediaType.JSX
          else if e = "tsx" then MediaType.TSX
          else MediaType.JavaScript
        | none => MediaType.JavaScript) := by
  have hred : (map_content_type path (some ct)).1 =
      map_js_like_extension path MediaType.JavaScript := by
    fin_cases h <;> rfl
  rw [hred]
  unfold map_js_like_extension
  cases hx : extensionOf path with
  | none => rfl
  | some e => rfl

/-- C1 witness: the amended claim at the TSX corner. -/
theorem claim_C1_witness :
    "text/javascript" ∈ jsLikeContentTypes
  ∧ (map_content_type "a/b.tsx" (some "text/javascript")).1 = MediaType.TSX :=
  ⟨by decide, (claim_C1 "a/b.tsx" "text/javascript" (by decide)).trans (by decide)⟩

/-- Helper: the first character surviving `dropWhile` up to a newline is
that newline. -/
theorem head_dropWhile_eq_newline :
    ∀ (l : List Char), '\n' ∈ l →
      (l.dropWhile (fun c => !(c == '\n'))).headD ' ' = '\n' := by
  intro l
  induction l with
  | nil => intro h; simp at h
  | cons c rest ih =>
    intro hmem
    by_cases hcn : c = '\n'
    · subst hcn
      rw [List.dropWhile_cons, if_neg (by simp)]
      rfl
    · rw [List.dropWhile_cons, if_pos (by simp [hcn])]
      apply ih
      rcases List.mem_cons.mp hmem with h | h
      · exact absurd h.symm hcn
      · exact h

/-- C7: the shebang step of the orchestrator.  Files whose bytes do not
begin with `#!` pass through unchanged; for shebang files the decoded text
is replaced by `filter_shebang`, which removes exactly the characters
before the first newline (the newline itself survives as the head of the
result) and yields the empty string when no newline exists. -/
theorem claim_C7 (env : Env) (doc : TextDocument) (text : String) :
    (shebangBytes.isPrefixOf doc.bytes = false → postProcessShebang env doc = some doc)
  ∧ (shebangBytes.isPrefixOf doc.bytes = true →
      env.convertToUtf8 doc.bytes doc.charset = some text →
      postProcessShebang env doc =
        some (TextDocument.new env (strBytes (filter_shebang text)) none))
  ∧ (∃ pre : List Char,
      text.data = pre ++ (filter_shebang text).data ∧ ∀ c ∈ pre, c ≠ '\n')
  ∧ (text.data.contains '\n' = true → (filter_shebang text).data.headD ' ' = '\n')
  ∧ (text.data.contains '\n' = false → filter_shebang text = "") := by
  refine ⟨?_, ?_, ?_, ?_, ?_⟩
  · intro h
    simp [postProcessShebang, h]
  · intro h1 h2
    simp [postProcessShebang, h1, h2]
  · by_cases hc : text.data.contains '\n' = true
    · refine ⟨text.data.takeWhile (fun c => !(c == '\n')), ?_, ?_⟩
      · rw [show (filter_shebang text).data =
            text.data.dropWhile (fun c => !(c == '\n')) from by
          simp only [filter_shebang]; rw [if_pos hc]]
        exact (List.takeWhile_append_dropWhile _ _).symm
      · intro c hcp
        have := List.mem_takeWhile_imp hcp
        simpa using this
    · refine ⟨text.data, ?_, ?_⟩
      · rw [show filter_shebang text = "" from by
          simp only [filter_shebang]; rw [if_neg hc]]
        simp
      · intro c hcp heq
        subst heq
        exact absurd (List.elem_iff.mpr hcp) (by simpa using hc)
  · intro hc
    rw [show (filter_shebang text).data =
        text.data.dropWhile (fun c => !(c == '\n')) from by
      simp only [filter_shebang]; rw [if_pos hc]]
    exact head_dropWhile_eq_newline text.data (List.elem_iff.mp hc)
  · intro hc
    simp only [filter_shebang]
    rw [if_neg (by rw [hc]; simp)]

/-- C7 witness: the shebang step at concrete inputs. -/
theorem claim_C7_witness :
    postProcessShebang defaultEnv { bytes := [99], charset := "utf-8" } =
        some { bytes := [99], charset := "utf-8" }
  ∧ (filter_shebang "#!a\nb").data.headD ' ' = '\n'
  ∧ filter_shebang "#!" = "" := by
  have h := claim_C7 defaultEnv { bytes := [99], charset := "utf-8" } "#!a\nb"
  have h2 := claim_C7 defaultEnv { bytes := [99], charset := "utf-8" } "#!"
  exact ⟨h.1 (by decide), h.2.2.2.1 (by decide), h2.2.2.2.2 (by decide)⟩

/-- C3: on a Redirect outcome from the origin, `fetch_remote_source`
writes the returned headers under the current URL with an empty body (so
a cache read of that URL yields empty bytes and the headers, `location`
included, exactly as written) and recurses on the new URL with the
redirect limit decreased by exactly one. -/
theorem claim_C3 (env : Env) (bl : List String) (checkNet : Url → Bool)
    (u v : Url) (headers : Headers) (limit : Int) (cache : HttpCacheM)
    (hlim : 0 ≤ limit) (hnet : checkNet u = true)
    (hfetch : env.fetchOnce u (moduleEtag cache u) =
      Except.ok (FetchOnceResult.redirect v headers)) :
    fetch_remote_source env bl checkNet false false u limit cache =
        fetch_remote_source env bl checkNet false false v (limit - 1)
          (http_cache_set cache u headers [])
      ∧ http_cache_get (http_cache_set cache u headers []) u =
          some { body := [], headers := headers } := by
  constructor
  · rw [fetch_remote_source_eq]
    have h1 : ¬ limit < 0 := by omega
    simp [h1, hnet, hfetch]
  · simp [http_cache_get, http_cache_set]

/-- C9: on a NotModified outcome, `fetch_remote_source` re-reads the
cached chain with a fresh redirect budget of 10 and returns that record;
the `unwrap` makes an HTTP-cache entry for the URL a necessary condition
for not panicking (an empty cache panics). -/
theorem claim_C9 (env : Env) (bl : List String) (checkNet : Url → Bool)
    (u : Url) (limit : Int) (cache : HttpCacheM)
    (hlim : 0 ≤ limit) (hnet : checkNet u = true)
    (hfetch : env.fetchOnce u (moduleEtag cache u) =
      Except.ok FetchOnceResult.notModified) :
    (fetch_remote_source env bl checkNet false false u limit cache =
      (match fetch_cached_remote_source env cache u 10 with
        | Except.error e => FetchOutcome.err e
        | Except.ok none => FetchOutcome.panic
        | Except.ok (some sf) => FetchOutcome.ok (sf, cache)))
  ∧ (http_cache_get cache u = none →
      fetch_remote_source env bl checkNet false false u limit cache =
        FetchOutcome.panic)
  ∧ (∀ sf, fetch_cached_remote_source env cache u 10 = Except.ok (some sf) →
      fetch_remote_source env bl checkNet false false u limit cache =
        FetchOutcome.ok (sf, cache)) := by
  have hmain : fetch_remote_source env bl checkNet false false u limit cache =
      (match fetch_cached_remote_source env cache u 10 with
        | Except.error e => FetchOutcome.err e
        | Except.ok none => FetchOutcome.panic
        | Except.ok (some sf) => FetchOutcome.ok (sf, cache)) := by
    rw [fetch_remote_source_eq]
    have h1 : ¬ limit < 0 := by omega
    simp [h1, hnet, hfetch]
  refine ⟨hmain, ?_, ?_⟩
  · intro hnone
    rw [hmain, fetch_cached_remote_source_eq]
    simp [hnone]
  · intro sf hsf
    rw [hmain, hsf]

/-- C3 witness: the redirect step of the scenario. -/
theorem claim_C3_witness :
    fetch_remote_source chainEnv [] (fun _ => true) false false urlA 10 [] =
        fetch_remote_source chainEnv [] (fun _ => true) false false urlB (10 - 1)
          (http_cache_set [] urlA [("location", "http://b/mod.js")] [])
      ∧ http_cache_get (http_cache_set [] urlA [("location", "http://b/mod.js")] [])
          urlA = some { body := [], headers := [("location", "http://b/mod.js")] } :=
  claim_C3 chainEnv [] (fun _ => true) urlA urlB [("location", "http://b/mod.js")]
    10 [] (by decide) rfl rfl

/-- C9 witness: a NotModified answer over an empty cache panics. -/
theorem claim_C9_witness :
    fetch_remote_source nmEnv [] (fun _ => true) false false urlA 10 [] =
      FetchOutcome.panic :=
  (claim_C9 nmEnv [] (fun _ => true) urlA 10 [] (by decide) rfl rfl).2.1 rfl

/-- C5: with `cached_only` set and no cached version, the remote engine
fails with a NotFound error whose message names `--cached-only`, and the
orchestrator rewraps every error whose message contains `--cached-only`
into the `Cannot find module ...` NotFound error. -/
theorem claim_C5 :
    (∀ (env : Env) (bl : List String) (checkNet : Url → Bool) (u : Url)
        (limit : Int) (cache : HttpCacheM),
      0 ≤ limit → checkNet u = true → http_cache_get cache u = none →
      fetch_remote_source env bl checkNet true true u limit cache =
          FetchOutcome.err (FetchErr.notFound
            ("Cannot find remote file " ++ squote ++ u.toString ++ squote
              ++ " in cache, --cached-only is specified"))
        ∧ strContains
            ("Cannot find remote file " ++ squote ++ u.toString ++ squote
              ++ " in cache, --cached-only is specified") "--cached-only" = true)
  ∧ (∀ (env : Env) (bl : List String) (checkNet : Url → Bool)
        (checkRead : String → Bool) (udc nr co : Bool) (specifier : Url)
        (ref : Option Url) (memCache : SourceFileCacheM) (cache : HttpCacheM)
        (e : FetchErr),
      mem_cache_get memCache specifier.toString = none →
      get_source_file env bl checkNet checkRead udc nr co specifier cache =
        FetchOutcome.err e →
      strContains (errToString e) "--cached-only" = true →
      fetch_source_file env bl checkNet checkRead udc nr co specifier ref
          memCache cache =
        FetchOutcome.err (FetchErr.notFound
          ("Cannot find module \"" ++ specifier.toString ++ "\""
            ++ referrerSuffix ref ++ " in cache, --cached-only is specified"))) := by
  constructor
  · intro env bl checkNet u limit cache hlim hnet hnone
    constructor
    · rw [fetch_remote_source_eq]
      have h1 : ¬ limit < 0 := by omega
      by_cases hb : check_cache_blocklist u bl
      · simp [h1, hnet, hb]
      · rw [fetch_cached_remote_source_eq]
        simp [h1, hnet, hb, hnone]
    · have hsub : hasSubstr "--cached-only".data
          (" in cache, --cached-only is specified").data = true := by decide
      have hstep : ∀ (l1 l2 : List Char),
          hasSubstr "--cached-only".data l2 = true →
          hasSubstr "--cached-only".data (l1 ++ l2) = true := by
        intro l1
        induction l1 with
        | nil => intro l2 h; simpa using h
        | cons c t ih =>
          intro l2 h
          simp only [List.cons_append, hasSubstr, List.append_eq]
          rw [ih l2 h]
          simp
      have : (("Cannot find remote file " ++ squote ++ u.toString ++ squote)
          ++ " in cache, --cached-only is specified").data =
          ("Cannot find remote file " ++ squote ++ u.toString ++ squote).data
            ++ (" in cache, --cached-only is specified").data :=
        String.data_append _ _
      unfold strContains
      rw [this]
      exact hstep _ _ hsub
  · intro env bl checkNet checkRead udc nr co specifier ref memCache cache e
      hmem hget hcontains
    simp [fetch_source_file, hmem, hget, hcontains]

/-- C5 witness: the concrete cached-only failure and its orchestrator
rewrap. -/
theorem claim_C5_witness :
    fetch_remote_source defaultEnv [] (fun _ => true) true true urlA 10 [] =
        FetchOutcome.err (FetchErr.notFound
          ("Cannot find remote file " ++ squote ++ urlA.toString ++ squote
            ++ " in cache, --cached-only is specified"))
  ∧ fetch_source_file defaultEnv [] (fun _ => true) (fun _ => true) true false true
        urlA none [] [] =
      FetchOutcome.err (FetchErr.notFound
        ("Cannot find module \"" ++ urlA.toString ++ "\""
          ++ referrerSuffix none ++ " in cache, --cached-only is specified")) := by
  constructor
  · exact (claim_C5.1 defaultEnv [] (fun _ => true) urlA 10 [] (by decide) rfl rfl).1
  · exact claim_C5.2 defaultEnv [] (fun _ => true) (fun _ => true) true false true
      urlA none [] []
      (FetchErr.notFound
        ("Cannot find remote file " ++ squote ++ urlA.toString ++ squote
          ++ " in cache, --cached-only is specified"))
      rfl (by decide) (by decide)

/-- C8: a successful `fetch_source_file` leaves the produced record in the
in-memory cache under the original specifier string, and any later fetch
of that specifier — through any environment, flags, referrer or HTTP
cache — returns the identical record directly from the memory cache with
all state unchanged (so no HTTP client call and no fetch path run). -/
theorem claim_C8 :
    (∀ (env : Env) (bl : List String) (checkNet : Url → Bool)
        (checkRead : String → Bool) (udc nr co : Bool) (specifier : Url)
        (ref : Option Url) (memCache : SourceFileCacheM) (cache : HttpCacheM)
        (file : SourceFile) (memCache2 : SourceFileCacheM) (cache2 : HttpCacheM),
      fetch_source_file env bl checkNet checkRead udc nr co specifier ref
          memCache cache = FetchOutcome.ok (file, memCache2, cache2) →
      mem_cache_get memCache2 specifier.toString = some file)
  ∧ (∀ (specifier : Url) (memCache : SourceFileCacheM) (file : SourceFile),
      mem_cache_get memCache specifier.toString = some file →
      ∀ (env : Env) (bl : List String) (checkNet : Url → Bool)
        (checkRead : String → Bool) (udc nr co : Bool) (ref : Option Url)
        (cache : HttpCacheM),
      fetch_source_file env bl checkNet checkRead udc nr co specifier ref
          memCache cache = FetchOutcome.ok (file, memCache, cache)) := by
  constructor
  · intro env bl checkNet checkRead udc nr co specifier ref memCache cache
      file memCache2 cache2 h
    cases hm : mem_cache_get memCache specifier.toString with
    | some sf =>
      simp only [fetch_source_file, hm] at h
      cases h
      exact hm
    | none =>
      simp only [fetch_source_file, hm] at h
      cases hg : get_source_file env bl checkNet checkRead udc nr co specifier cache with
      | ok pair =>
        obtain ⟨f0, c0⟩ := pair
        cases hp : postProcessShebang env f0.source_code with
        | none => simp [hg, hp] at h
        | some doc =>
          simp only [hg, hp] at h
          obtain ⟨h1, h2, h3⟩ := h
          simp [mem_cache_get, mem_cache_set]
      | err e =>
        by_cases h1 : strContains (errToString e) "--cached-only" = true
        · simp [hg, h1] at h
        · by_cases h2 : isIoNotFound e = true
          · simp [hg, h1, h2] at h
          · simp [hg, h1, h2] at h
      | panic => simp [hg] at h
  · intro specifier memCache file hm env bl checkNet checkRead udc nr co ref cache
    simp [fetch_source_file, hm]

/-- C8 witness: a cached record is returned verbatim with all state
unchanged. -/
theorem claim_C8_witness :
    fetch_source_file defaultEnv [] (fun _ => true) (fun _ => true) false false false
      urlA none [(urlA.toString, sfA)] [] =
      FetchOutcome.ok (sfA, [(urlA.toString, sfA)], []) :=
  claim_C8.2 urlA [(urlA.toString, sfA)] sfA (by decide) defaultEnv []
    (fun _ => true) (fun _ => true) false false false none []

/-- C10: `fetch_source_file` decodes eagerly exactly when the fetched
bytes begin with `#!`: a decode failure there is a panic (not a surfaced
error), while a file not beginning with `#!` is returned with its bytes
untouched and never decoded during the fetch — its decode error, if any,
only appears when `to_str` is later called. -/
theorem claim_C10 (env : Env) (bl : List String) (checkNet : Url → Bool)
    (checkRead : String → Bool) (udc nr co : Bool) (specifier : Url)
    (ref : Option Url) (memCache : SourceFileCacheM) (cache : HttpCacheM)
    (file : SourceFile) (cache2 : HttpCacheM)
    (hmem : mem_cache_get memCache specifier.toString = none)
    (hget : get_source_file env bl checkNet checkRead udc nr co specifier cache =
      FetchOutcome.ok (file, cache2)) :
    (shebangBytes.isPrefixOf file.source_code.bytes = true →
      env.convertToUtf8 file.source_code.bytes file.source_code.charset = none →
      fetch_source_file env bl checkNet checkRead udc nr co specifier ref
        memCache cache = FetchOutcome.panic)
  ∧ (shebangBytes.isPrefixOf file.source_code.bytes = false →
      fetch_source_file env bl checkNet checkRead udc nr co specifier ref
          memCache cache =
        FetchOutcome.ok (file, mem_cache_set memCache specifier.toString file, cache2)
      ∧ TextDocument.to_str env file.source_code =
          env.convertToUtf8 file.source_code.bytes file.source_code.charset) := by
  constructor
  · intro h1 h2
    simp [fetch_source_file, hmem, hget, postProcessShebang, h1, h2]
  · intro h1
    constructor
    · simp [fetch_source_file, hmem, hget, postProcessShebang, h1]
    · rfl

/-- C10 witness: the decode failure on a shebang file panics. -/
theorem claim_C10_witness :
    fetch_source_file shebangEnv [] (fun _ => true) (fun _ => true) false false false
      urlF none [] [] = FetchOutcome.panic :=
  (claim_C10 shebangEnv [] (fun _ => true) (fun _ => true) false false false
    urlF none [] []
    { url := urlF, filename := "/m.ts", types_header := none,
      media_type := MediaType.TypeScript,
      source_code := { bytes := [35, 33], charset := "utf-8" } }
    [] rfl rfl).1 rfl rfl

/-- C4 counterexample: with an in-memory cache entry for the `ftp`
specifier — exactly what `save_source_file_in_cache` can create —
`fetch_source_file` succeeds instead of failing with UnsupportedScheme;
and with an empty cache, `fetch_cached_source_file` returns `none` rather
than any error. -/
theorem claim_C4_counterexample :
    fetch_source_file defaultEnv [] (fun _ => true) (fun _ => true) false false false
        urlX none [(urlX.toString, sfX)] [] =
      FetchOutcome.ok (sfX, [(urlX.toString, sfX)], [])
  ∧ fetch_cached_source_file defaultEnv (fun _ => true) [] [] urlX = none := by
  exact ⟨by decide, by decide⟩

/-- C4 (amended): for a URL whose scheme is outside http/https/file,
`fetch_source_file` fails with the UnsupportedScheme error only when the
in-memory cache has no entry for the specifier (an entry is returned
without any scheme check); `fetch_cached_source_file` swallows the scheme
error and returns `none`; and the save-injection path performs no scheme
check at all — it unconditionally installs the record. -/
theorem claim_C4 :
    (∀ (env : Env) (bl : List String) (checkNet : Url → Bool)
        (checkRead : String → Bool) (udc nr co : Bool) (u : Url)
        (ref : Option Url) (memCache : SourceFileCacheM) (cache : HttpCacheM),
      SUPPORTED_URL_SCHEMES.contains u.scheme = false →
      mem_cache_get memCache u.toString = none →
      strContains (errToString (FetchErr.unsupportedScheme u.scheme u.toString))
        "--cached-only" = false →
      fetch_source_file env bl checkNet checkRead udc nr co u ref memCache cache =
        FetchOutcome.err (FetchErr.unsupportedScheme u.scheme u.toString))
  ∧ (∀ (env : Env) (checkRead : String → Bool) (memCache : SourceFileCacheM)
        (cache : HttpCacheM) (u : Url),
      SUPPORTED_URL_SCHEMES.contains u.scheme = false →
      mem_cache_get memCache u.toString = none →
      fetch_cached_source_file env checkRead memCache cache u = none)
  ∧ (∀ (memCache : SourceFileCacheM) (u : Url) (file : SourceFile),
      mem_cache_get (save_source_file_in_cache memCache u file) u.toString =
        some file)
  ∧ (∀ (env : Env) (bl : List String) (checkNet : Url → Bool)
        (checkRead : String → Bool) (udc nr co : Bool) (u : Url)
        (ref : Option Url) (memCache : SourceFileCacheM) (cache : HttpCacheM)
        (sf : SourceFile),
      mem_cache_get memCache u.toString = some sf →
      fetch_source_file env bl checkNet checkRead udc nr co u ref memCache cache =
        FetchOutcome.ok (sf, memCache, cache)) := by
  refine ⟨?_, ?_, ?_, ?_⟩
  · intro env bl checkNet checkRead udc nr co u ref memCache cache hs hmem hnc
    have hguard : check_if_supported_scheme u =
        Except.error (FetchErr.unsupportedScheme u.scheme u.toString) := by
      simp only [check_if_supported_scheme]
      rw [if_neg (by rw [hs]; simp)]
    have hget : get_source_file env bl checkNet checkRead udc nr co u cache =
        FetchOutcome.err (FetchErr.unsupportedScheme u.scheme u.toString) := by
      simp [get_source_file, hguard]
    simp [fetch_source_file, hmem, hget, hnc, isIoNotFound]
  · intro env checkRead memCache cache u hs hmem
    have hguard : check_if_supported_scheme u =
        Except.error (FetchErr.unsupportedScheme u.scheme u.toString) := by
      simp only [check_if_supported_scheme]
      rw [if_neg (by rw [hs]; simp)]
    simp [fetch_cached_source_file, hmem, get_source_file_from_local_cache, hguard]
  · intro memCache u file
    simp [save_source_file_in_cache, mem_cache_set, mem_cache_get]
  · intro env bl checkNet checkRead udc nr co u ref memCache cache sf hmem
    simp [fetch_source_file, hmem]

/-- C4 witness: the amended claim at a `ws`-scheme URL with empty caches. -/
theorem claim_C4_witness :
    fetch_source_file defaultEnv [] (fun _ => true) (fun _ => true) false false false
        { scheme := "ws", host := "h", path := "/" } none [] [] =
      FetchOutcome.err (FetchErr.unsupportedScheme "ws" "ws://h/") := by
  have h := claim_C4.1 defaultEnv [] (fun _ => true) (fun _ => true) false false false
    { scheme := "ws", host := "h", path := "/" } none [] []
    (by decide) (by decide) (by decide)
  exact h

/-- Helper: with the disk cache off, a chain of `k` hops succeeds under
any redirect limit of at least `k`. -/
theorem remote_ok_of_chain (env : Env) (bl : List String) (checkNet : Url → Bool)
    (hnet : ∀ v, checkNet v = true) :
    ∀ (u : Url) (k : Nat), ChainTo env u k →
    ∀ (N : Int) (cache : HttpCacheM), (k : Int) ≤ N →
    ∃ sf c2, fetch_remote_source env bl checkNet false false u N cache =
      FetchOutcome.ok (sf, c2) := by
  intro u k hchain
  induction hchain with
  | code u body headers h =>
    intro N cache hN
    rw [fetch_remote_source_eq]
    have h1 : ¬ N < 0 := by omega
    simp [h1, hnet u, h (moduleEtag cache u)]
  | redirect u v headers k h hv ih =>
    intro N cache hN
    rw [fetch_remote_source_eq]
    have h1 : ¬ N < 0 := by push_cast at hN; omega
    simp only [h1, if_false, hnet u, Bool.true_eq_false, Bool.false_and, if_false,
      h (moduleEtag cache u)]
    exact ih (N - 1) (http_cache_set cache u headers []) (by push_cast at hN ⊢; omega)

/-- Helper: with the disk cache off, a chain longer than the redirect
limit fails with the too-many-redirects error. -/
theorem remote_err_of_chain (env : Env) (bl : List String) (checkNet : Url → Bool)
    (hnet : ∀ v, checkNet v = true) :
    ∀ (u : Url) (k : Nat), ChainTo env u k →
    ∀ (N : Int) (cache : HttpCacheM), N < (k : Int) →
    fetch_remote_source env bl checkNet false false u N cache =
      FetchOutcome.err (FetchErr.http "too many redirects") := by
  intro u k hchain
  induction hchain with
  | code u body headers h =>
    intro N cache hN
    rw [fetch_remote_source_eq]
    have h1 : N < 0 := by push_cast at hN; omega
    simp [h1]
  | redirect u v headers k h hv ih =>
    intro N cache hN
    by_cases h1 : N < 0
    · rw [fetch_remote_source_eq]
      simp [h1]
    · rw [fetch_remote_source_eq]
      simp only [h1, if_false, hnet u, Bool.true_eq_false, Bool.false_and, if_false,
        h (moduleEtag cache u)]
      exact ih (N - 1) (http_cache_set cache u headers []) (by push_cast at hN ⊢; omega)

/-- Helper: a fully cached chain of `k` hops reconstructs successfully
under any redirect limit of at least `k`. -/
theorem cached_ok_of_chain (env : Env) :
    ∀ (cache : HttpCacheM) (u : Url) (k : Nat), CachedChainTo cache u k →
    ∀ (N : Int), (k : Int) ≤ N →
    ∃ sf, fetch_cached_remote_source env cache u N = Except.ok (some sf) := by
  intro cache u k hchain
  induction hchain with
  | terminal u entry hc hl =>
    intro N hN
    rw [fetch_cached_remote_source_eq]
    have h1 : ¬ N < 0 := by omega
    simp [h1, hc, hl]
  | hop u entry loc v k hc hl hp hv ih =>
    intro N hN
    rw [fetch_cached_remote_source_eq]
    have h1 : ¬ N < 0 := by push_cast at hN; omega
    simp only [h1, if_false, hc, hl, hp]
    exact ih (N - 1) (by push_cast at hN ⊢; omega)

/-- Helper: a cached chain longer than the redirect limit fails with the
too-many-redirects error. -/
theorem cached_err_of_chain (env : Env) :
    ∀ (cache : HttpCacheM) (u : Url) (k : Nat), CachedChainTo cache u k →
    ∀ (N : Int), N < (k : Int) →
    fetch_cached_remote_source env cache u N =
      Except.error (FetchErr.http "too many redirects") := by
  intro cache u k hchain
  induction hchain with
  | terminal u entry hc hl =>
    intro N hN
    rw [fetch_cached_remote_source_eq]
    have h1 : N < 0 := by push_cast at hN; omega
    simp [h1]
  | hop u entry loc v k hc hl hp hv ih =>
    intro N hN
    by_cases h1 : N < 0
    · rw [fetch_cached_remote_source_eq]
      simp [h1]
    · rw [fetch_cached_remote_source_eq]
      simp only [h1, if_false, hc, hl, hp]
      exact ih (N - 1) (by push_cast at hN ⊢; omega)

/-- C2: the redirect bound.  With redirect limit `N`, a chain of up to and
including `N` hops succeeds and any longer chain — in particular one of
`N + 1` hops — fails with the `Http: too many redirects` error; the same
bound holds for `fetch_cached_remote_source` over a cached redirect
chain. -/
theorem claim_C2 (env : Env) (bl : List String) (checkNet : Url → Bool)
    (hnet : ∀ v, checkNet v = true) :
    (∀ (u : Url) (k : Nat) (N : Int) (cache : HttpCacheM), ChainTo env u k →
      ((k : Int) ≤ N →
        ∃ sf c2, fetch_remote_source env bl checkNet false false u N cache =
          FetchOutcome.ok (sf, c2))
      ∧ (N < (k : Int) →
        fetch_remote_source env bl checkNet false false u N cache =
          FetchOutcome.err (FetchErr.http "too many redirects")))
  ∧ (∀ (cache : HttpCacheM) (u : Url) (k : Nat) (N : Int), CachedChainTo cache u k →
      ((k : Int) ≤ N →
        ∃ sf, fetch_cached_remote_source env cache u N = Except.ok (some sf))
      ∧ (N < (k : Int) →
        fetch_cached_remote_source env cache u N =
          Except.error (FetchErr.http "too many redirects"))) := by
  constructor
  · intro u k N cache hchain
    exact ⟨fun hN => remote_ok_of_chain env bl checkNet hnet u k hchain N cache hN,
      fun hN => remote_err_of_chain env bl checkNet hnet u k hchain N cache hN⟩
  · intro cache u k N hchain
    exact ⟨fun hN => cached_ok_of_chain env cache u k hchain N hN,
      fun hN => cached_err_of_chain env cache u k hchain N hN⟩

/-- C2 witness: the one-hop scenario succeeds at limit 1 and fails at
limit 0; a one-hop cached chain behaves identically. -/
theorem claim_C2_witness :
    (∃ sf c2, fetch_remote_source chainEnv [] (fun _ => true) false false urlA 1 [] =
      FetchOutcome.ok (sf, c2))
  ∧ fetch_remote_source chainEnv [] (fun _ => true) false false urlA 0 [] =
      FetchOutcome.err (FetchErr.http "too many redirects")
  ∧ (∃ sf, fetch_cached_remote_source chainEnv
      [(urlA, { body := [], headers := [("location", "http://b/mod.js")] }),
       (urlB, { body := [101], headers := [] })] urlA 1 = Except.ok (some sf))
  ∧ fetch_cached_remote_source chainEnv
      [(urlA, { body := [], headers := [("location", "http://b/mod.js")] }),
       (urlB, { body := [101], headers := [] })] urlA 0 =
      Except.error (FetchErr.http "too many redirects") := by
  have hch : ChainTo chainEnv urlA 1 :=
    ChainTo.redirect urlA urlB [("location", "http://b/mod.js")] 0 (fun _ => rfl)
      (ChainTo.code urlB [101] [("content-type", "application/javascript")]
        (fun _ => rfl))
  have hcc : CachedChainTo
      [(urlA, { body := [], headers := [("location", "http://b/mod.js")] }),
       (urlB, { body := [101], headers := [] })] urlA 1 :=
    CachedChainTo.hop urlA { body := [], headers := [("location", "http://b/mod.js")] }
      "http://b/mod.js" urlB 0 (by decide) (by decide) (by decide)
      (CachedChainTo.terminal urlB { body := [101], headers := [] } (by decide)
        (by decide))
  have h := claim_C2 chainEnv [] (fun _ => true) (fun _ => rfl)
  refine ⟨(h.1 urlA 1 1 [] hch).1 (by norm_num),
    (h.1 urlA 1 0 [] hch).2 (by norm_num),
    (h.2 _ urlA 1 1 hcc).1 (by norm_num),
    (h.2 _ urlA 1 0 hcc).2 (by norm_num)⟩
